import Mathlib

/-!
Formal model of the Ariane CI-trigger bot's workflow-selection decision
engine, shallowly embedded from the Go sources:

* `internal/config` (merge_group.go, second part): `ArianeConfig`,
  `CheckForTrigger`, `ShouldRunOnlyWorkflows`, `ShouldRunWorkflow`.
* `internal/handlers/issue_comment.go`: `determineContextRef`,
  `shouldSkipWorkflow`.
* `internal/handlers/merge_group.go`: `MergeGroupHandler.Handle`.

Go regular expressions (RE2, no back-references) denote regular languages,
so a compiled pattern is modelled as a `RegularExpression Char`.
The code anchors path patterns with a leading `^` and trigger patterns
with `^...$`; we model the former by matching a prefix of the subject
string and the latter by matching the whole string.
-/

namespace Ariane

/-- A compiled Go regular expression, as a regular language over `Char`. -/
abbrev Regex := RegularExpression Char

/-- A Go pattern string, as stored in a config field.  `empty` is the empty
string `""`; `bad` is a non-empty string rejected by `regexp.Compile`
(e.g. `"("`); `ok r` is a non-empty string compiling to the regular
expression denoted by `r`.  Prepending anchors (`^`, `$`) never changes
whether a pattern compiles, so compilability is a property of the
pattern alone. -/
inductive PatStr where
  | empty : PatStr
  | bad : PatStr
  | ok : Regex → PatStr

/-- `TriggerConfig` from internal/config: the workflows a trigger phrase
dispatches. -/
structure TriggerConfig where
  Workflows : List String

/-- `WorkflowPathsRegexConfig` from internal/config: per-workflow
`paths-regex` / `paths-ignore-regex` fields. -/
structure WorkflowPathsRegexConfig where
  PathsRegex : PatStr
  PathsIgnoreRegex : PatStr

/-- `ArianeConfig` from internal/config.  The Go `triggers` and `workflows`
maps are modelled as association lists; `CheckForTrigger` iterates the
triggers in list order (Go map order is unspecified; the spec treats the
iteration order as a fixed but arbitrary configuration order). -/
structure ArianeConfig where
  Triggers : List (PatStr × TriggerConfig)
  Workflows : List (String × WorkflowPathsRegexConfig)
  AllowedTeams : List String

/-- Go `strings.HasPrefix s p`. -/
def goHasPrefix (s p : String) : Bool :=
  p.toList.isPrefixOf s.toList

/-- Go `re.MatchString s` for a regexp compiled from `"^" ++ pattern`:
some prefix of `s` belongs to the pattern's language. -/
def goMatchStart (r : Regex) (s : String) : Bool :=
  s.toList.inits.any fun p => r.rmatch p

/-- Literal regular expression matching exactly the string `s`. -/
def strLit (s : String) : Regex :=
  s.toList.foldr (fun c r => RegularExpression.char c * r) 1

/-- Compiling `"^" ++ pattern ++ "$"` as `CheckForTrigger` does: the empty
pattern string yields `^$`, which matches only the empty comment. -/
def PatStr.triggerCompile : PatStr → Option Regex
  | .empty => some 1
  | .bad => none
  | .ok r => some r

/-- The compile step of `ShouldRunWorkflow` for one config field: an empty
field is never compiled (the Go `*regexp.Regexp` stays nil, modelled
`some none`); a non-empty field either compiles (`some (some r)`) or
makes the whole call return false (`none`). -/
def PatStr.fieldCompile : PatStr → Option (Option Regex)
  | .empty => some none
  | .bad => none
  | .ok r => some (some r)

/-- Is the underlying Go pattern string empty (`== ""`)? -/
def PatStr.isEmptyStr : PatStr → Bool
  | .empty => true
  | _ => false

/-- `re != nil && re.MatchString s` for a possibly-nil compiled regexp. -/
def optMatchStart : Option Regex → String → Bool
  | none, _ => false
  | some r, s => goMatchStart r s

/-- `ArianeConfig.CheckForTrigger`'s loop over the triggers map: compile
each pattern as `^pattern$` (skipping patterns that fail to compile) and
return the first full match, as (whole match, workflow list).  With a
fully anchored pattern the whole match (submatch 0) is the comment. -/
def checkTriggerLoop (comment : String) : List (PatStr × TriggerConfig) → Option (String × List String)
  | [] => none
  | (regex, trigger) :: rest =>
    match regex.triggerCompile with
    | none => checkTriggerLoop comment rest
    | some re =>
      if re.rmatch comment.toList then some (comment, trigger.Workflows)
      else checkTriggerLoop comment rest

/-- `ArianeConfig.CheckForTrigger` (internal/config).  `none` models the
Go `nil, nil` no-match result. -/
def CheckForTrigger (config : ArianeConfig) (comment : String) : Option (String × List String) :=
  checkTriggerLoop comment config.Triggers

/-- `ArianeConfig.ShouldRunOnlyWorkflows` (internal/config): run unless
every changed file is a workflows-directory file other than the given
workflow's own file. -/
def ShouldRunOnlyWorkflows (config : ArianeConfig) (workflow : String) : List String → Bool
  | [] => false
  | filename :: rest =>
    if goHasPrefix filename (".github/workflows") = false
        ∨ filename = (".github/workflows/") ++ workflow then true
    else ShouldRunOnlyWorkflows config workflow rest

/-- The file-scan loop of `ArianeConfig.ShouldRunWorkflow`: `none` models
the early `return true` (the file equals the workflow's own file or
matches `PathsRegex`); `some n` means the scan finished counting `n`
ignorable files (other workflows-directory files, or `PathsIgnoreRegex`
matches). -/
def countIgnored (workflow : String) (re reIgnore : Option Regex) : List String → Option Nat
  | [] => some 0
  | filename :: rest =>
    if filename = (".github/workflows/") ++ workflow ∨ optMatchStart re filename = true then
      none
    else if goHasPrefix filename (".github/workflows") = true then
      (countIgnored workflow re reIgnore rest).map (· + 1)
    else if optMatchStart reIgnore filename = true then
      (countIgnored workflow re reIgnore rest).map (· + 1)
    else
      countIgnored workflow re reIgnore rest

/-- `ArianeConfig.ShouldRunWorkflow` (internal/config). -/
def ShouldRunWorkflow (config : ArianeConfig) (workflow : String) (files : List String) : Bool :=
  if files.length = 0 then false
  else
    match List.lookup workflow config.Workflows with
    | none => false
    | some workflowConfig =>
      if workflowConfig.PathsRegex.isEmptyStr = false
          ∧ workflowConfig.PathsIgnoreRegex.isEmptyStr = false then true
      else
        match workflowConfig.PathsRegex.fieldCompile with
        | none => false
        | some re =>
          match workflowConfig.PathsIgnoreRegex.fieldCompile with
          | none => false
          | some reIgnore =>
            match countIgnored workflow re reIgnore files with
            | none => true
            | some numberIgnoredFiles =>
              if re.isSome = true ∧ reIgnore.isNone = true then false
              else decide (numberIgnoredFiles < files.length)

/-- One workflow run, as returned by the runs-listing API
(status/conclusion of the latest run for a commit). -/
structure WorkflowRun where
  status : String
  conclusion : String

/-- `PRCommentHandler.shouldSkipWorkflow` (issue_comment.go), as a function
of the runs-listing outcome: `errOccurred` models a failed API call,
`none` models a nil runs object, and the list is latest-first. -/
def shouldSkipWorkflow (errOccurred : Bool) (runs : Option (List WorkflowRun)) : Bool :=
  if errOccurred then false
  else
    match runs with
    | some (lastRun :: _) =>
      if lastRun.status = ("completed") then
        if lastRun.conclusion = ("success") ∨ lastRun.conclusion = ("skipped") then true
        else if lastRun.conclusion = ("failure") then false
        else false
      else false
    | _ => false

/-- The pull-request fields read by `determineContextRef`:
head SHA, head repository owner/name, head branch ref, base branch ref. -/
structure PullRequest where
  headSHA : String
  headOwner : String
  headRepo : String
  headRef : String
  baseRef : String

/-- `PRCommentHandler.determineContextRef` (issue_comment.go): returns
(context ref, SHA). -/
def determineContextRef (pr : PullRequest) (owner repo : String) : String × String :=
  let SHA := pr.headSHA
  let contextRef :=
    if pr.headOwner ≠ owner ∨ pr.headRepo ≠ repo then pr.baseRef else pr.headRef
  (contextRef, SHA)

/-- One required status check from branch protection: its context name and
the identifier of the app it is sourced from (0 = any source). -/
structure RequiredCheck where
  context : String
  appID : Int

/-- Arguments of one `CreateCheckRun` call. -/
structure CheckRunOptions where
  name : String
  headSHA : String
  status : String
  conclusion : String

/-- The per-check loop of `MergeGroupHandler.Handle`: checks with a nonzero
app identifier are skipped; for the rest a completed/success check run is
created.  `createErr` tells whether a given creation call fails; a failure
is only logged, so the loop continues either way.  Returns the list of
attempted check-run creations, in order. -/
def mergeGroupProcessChecks (createErr : CheckRunOptions → Bool) (headSHA : String) : List RequiredCheck → List CheckRunOptions
  | [] => []
  | ch :: rest =>
    if ch.appID ≠ 0 then mergeGroupProcessChecks createErr headSHA rest
    else
      let checkRunOptions : CheckRunOptions := ⟨ch.context, headSHA, ("completed"), ("success")⟩
      let _err := createErr checkRunOptions
      mergeGroupProcessChecks createErr headSHA rest |>.cons checkRunOptions

/-- The `merge_group` event fields read by `MergeGroupHandler.Handle`. -/
structure MergeGroupEvent where
  action : String
  baseRef : String
  headSHA : String

/-- `MergeGroupHandler.Handle` (merge_group.go), as a function of the event
and the branch-protection required checks fetched for the merge group's
base ref: the check runs it creates at the merge-group head SHA. -/
def MergeGroupHandle (createErr : CheckRunOptions → Bool) (event : MergeGroupEvent) (requiredChecks : List RequiredCheck) : List CheckRunOptions :=
  if event.action ≠ ("checks_requested") then []
  else mergeGroupProcessChecks createErr event.headSHA requiredChecks

/-- The triggers configuration of the repository's `/cute` test case. -/
def cuteConfig : ArianeConfig :=
  ⟨[(PatStr.ok (strLit ("/cute")), ⟨[("cte.yaml")]⟩)], [], []⟩

/-- A config whose `foo.yaml` workflow sets only `paths-ignore-regex`
(pattern `docs/`). -/
def ignoreOnlyConfig : ArianeConfig :=
  ⟨[], [(("foo.yaml"), ⟨PatStr.empty, PatStr.ok (strLit ("docs/"))⟩)], []⟩

/-- A config whose `foo.yaml` workflow has a non-empty `paths-regex` that
does not compile and an empty `paths-ignore-regex`. -/
def badRegexConfig : ArianeConfig :=
  ⟨[], [(("foo.yaml"), ⟨PatStr.bad, PatStr.empty⟩)], []⟩

/-- A config whose `foo.yaml` workflow leaves both path fields empty. -/
def plainConfig : ArianeConfig :=
  ⟨[], [(("foo.yaml"), ⟨PatStr.empty, PatStr.empty⟩)], []⟩

/-- A config whose `foobar.yaml` workflow sets both path fields
(the unsupported combination). -/
def bothConfig : ArianeConfig :=
  ⟨[], [(("foobar.yaml"), ⟨PatStr.ok (strLit ("x/")), PatStr.ok (strLit ("test/"))⟩)], []⟩

/-- A pull request whose head repository differs from the event repository. -/
def forkPR : PullRequest :=
  ⟨("sha1"), ("alice"), ("cilium"), ("feature"), ("main")⟩

/-- A pull request whose head repository is the event repository. -/
def localPR : PullRequest :=
  ⟨("sha2"), ("cilium"), ("cilium"), ("feature"), ("main")⟩

/-- A `merge_group` event requesting checks. -/
def mgEvent : MergeGroupEvent :=
  ⟨("checks_requested"), ("main"), ("mgsha")⟩

/-- Two required checks: one app-managed (`appID = 0`), one external. -/
def mgChecks : List RequiredCheck :=
  [⟨("required-a"), 0⟩, ⟨("required-b"), 7⟩]

/-! ## Helper lemmas -/

theorem goHasPrefix_workflows_own (w : String) :
    goHasPrefix ((".github/workflows/") ++ w) (".github/workflows") = true := by
  unfold goHasPrefix
  rw [List.isPrefixOf_iff_prefix]
  have hsplit : ((".github/workflows/") ++ w).toList
      = (".github/workflows").toList ++ ('/' :: w.toList) := by
    show ((".github/workflows/") ++ w).data = (".github/workflows").data ++ ('/' :: w.data)
    rw [String.data_append]
    have h : (".github/workflows/").data = (".github/workflows").data ++ ['/'] := by decide
    rw [h, List.append_assoc]
    rfl
  rw [hsplit]
  exact List.prefix_append _ _

theorem checkTriggerLoop_some (comment : String) (ts : List (PatStr × TriggerConfig))
    (res : String × List String) (h : checkTriggerLoop comment ts = some res) :
    ∃ p t re, (p, t) ∈ ts ∧ p.triggerCompile = some re
      ∧ comment.toList ∈ re.matches' ∧ res = (comment, t.Workflows) := by
  induction ts with
  | nil => exact absurd h (by simp [checkTriggerLoop])
  | cons pt rest ih =>
    obtain ⟨p, t⟩ := pt
    cases hcomp : p.triggerCompile with
    | none =>
      simp only [checkTriggerLoop, hcomp] at h
      obtain ⟨p', t', re, hmem, h1, h2, h3⟩ := ih h
      exact ⟨p', t', re, List.mem_cons_of_mem _ hmem, h1, h2, h3⟩
    | some re =>
      simp only [checkTriggerLoop, hcomp] at h
      by_cases hm : re.rmatch comment.toList = true
      · rw [if_pos hm] at h
        exact ⟨p, t, re, List.mem_cons_self (p, t) rest, hcomp,
          (RegularExpression.rmatch_iff_matches' re comment.toList).mp hm,
          (Option.some.inj h).symm⟩
      · rw [if_neg hm] at h
        obtain ⟨p', t', re', hmem, h1, h2, h3⟩ := ih h
        exact ⟨p', t', re', List.mem_cons_of_mem _ hmem, h1, h2, h3⟩

theorem checkTriggerLoop_none (comment : String) (ts : List (PatStr × TriggerConfig))
    (h : ∀ p t re, (p, t) ∈ ts → p.triggerCompile = some re → comment.toList ∉ re.matches') :
    checkTriggerLoop comment ts = none := by
  induction ts with
  | nil => rfl
  | cons pt rest ih =>
    obtain ⟨p, t⟩ := pt
    cases hcomp : p.triggerCompile with
    | none =>
      simp only [checkTriggerLoop, hcomp]
      exact ih fun p' t' re hm hc => h p' t' re (List.mem_cons_of_mem _ hm) hc
    | some re =>
      have hnm : ¬ re.rmatch comment.toList = true := fun hm =>
        h p t re (List.mem_cons_self _ _) hcomp
          ((RegularExpression.rmatch_iff_matches' re comment.toList).mp hm)
      simp only [checkTriggerLoop, hcomp, if_neg hnm]
      exact ih fun p' t' re' hm hc => h p' t' re' (List.mem_cons_of_mem _ hm) hc

theorem countIgnored_none_of_own (w : String) (re reIgnore : Option Regex)
    (files : List String) (hmem : (".github/workflows/") ++ w ∈ files) :
    countIgnored w re reIgnore files = none := by
  induction files with
  | nil => exact absurd hmem (List.not_mem_nil _)
  | cons f fs ih =>
    rcases List.mem_cons.mp hmem with heq | hmem'
    · simp only [countIgnored, if_pos (Or.inl heq.symm)]
    · have hrest := ih hmem'
      by_cases h1 : f = (".github/workflows/") ++ w ∨ optMatchStart re f = true
      · simp only [countIgnored, if_pos h1]
      · by_cases h2 : goHasPrefix f (".github/workflows") = true
        · simp only [countIgnored, if_neg h1, if_pos h2, hrest]
          rfl
        · by_cases h3 : optMatchStart reIgnore f = true
          · simp only [countIgnored, if_neg h1, if_neg h2, if_pos h3, hrest]
            rfl
          · simp only [countIgnored, if_neg h1, if_neg h2, if_neg h3]
            exact hrest

theorem countIgnored_ignoreOnly (w : String) (rI : Regex) (files : List String)
    (hpre : ∀ f ∈ files, goHasPrefix f (".github/workflows") = false) :
    countIgnored w none (some rI) files
      = some (List.countP (fun f => goMatchStart rI f) files) := by
  induction files with
  | nil => rfl
  | cons f fs ih =>
    have hf : goHasPrefix f (".github/workflows") = false := hpre f (List.mem_cons_self f fs)
    have hown : ¬ (f = (".github/workflows/") ++ w ∨ optMatchStart (none : Option Regex) f = true) := by
      rintro (heq | hmatch)
      · rw [heq, goHasPrefix_workflows_own] at hf
        exact Bool.noConfusion hf
      · exact absurd hmatch (by simp [optMatchStart])
    have hfneg : ¬ goHasPrefix f (".github/workflows") = true := by simp [hf]
    have hih := ih fun g hg => hpre g (List.mem_cons_of_mem f hg)
    by_cases hm : optMatchStart (some rI) f = true
    · have hm' : goMatchStart rI f = true := hm
      simp only [countIgnored, if_neg hown, if_neg hfneg, if_pos hm, hih,
        Option.map_some']
      rw [List.countP_cons_of_pos (fun g => goMatchStart rI g) fs hm']
    · have hm' : ¬ goMatchStart rI f = true := hm
      simp only [countIgnored, if_neg hown, if_neg hfneg, if_neg hm, hih]
      rw [List.countP_cons_of_neg (fun g => goMatchStart rI g) fs hm']

theorem mem_mergeGroupProcessChecks (f : CheckRunOptions → Bool) (sha : String)
    (checks : List RequiredCheck) (opts : CheckRunOptions) :
    opts ∈ mergeGroupProcessChecks f sha checks ↔
      ∃ ch ∈ checks, ch.appID = 0 ∧ opts = ⟨ch.context, sha, ("completed"), ("success")⟩ := by
  induction checks with
  | nil => simp [mergeGroupProcessChecks]
  | cons ch rest ih =>
    by_cases hid : ch.appID ≠ 0
    · simp only [mergeGroupProcessChecks, if_pos hid, ih]
      constructor
      · rintro ⟨g, hg, h0, he⟩
        exact ⟨g, List.mem_cons_of_mem ch hg, h0, he⟩
      · rintro ⟨g, hg, h0, he⟩
        rcases List.mem_cons.mp hg with rfl | hg'
        · exact absurd h0 hid
        · exact ⟨g, hg', h0, he⟩
    · have h0 : ch.appID = 0 := not_ne_iff.mp hid
      simp only [mergeGroupProcessChecks, if_neg hid]
      constructor
      · intro hmem
        rcases List.mem_cons.mp hmem with rfl | hmem'
        · exact ⟨ch, List.mem_cons_self ch rest, h0, rfl⟩
        · obtain ⟨g, hg, hg0, he⟩ := ih.mp hmem'
          exact ⟨g, List.mem_cons_of_mem ch hg, hg0, he⟩
      · rintro ⟨g, hg, hg0, he⟩
        rcases List.mem_cons.mp hg with rfl | hg'
        · exact List.mem_cons.mpr (Or.inl he)
        · exact List.mem_cons.mpr (Or.inr (ih.mpr ⟨g, hg', hg0, he⟩))

theorem mergeGroupProcessChecks_indep (f g : CheckRunOptions → Bool) (sha : String)
    (checks : List RequiredCheck) :
    mergeGroupProcessChecks f sha checks = mergeGroupProcessChecks g sha checks := by
  induction checks with
  | nil => rfl
  | cons ch rest ih =>
    by_cases hid : ch.appID ≠ 0
    · simp only [mergeGroupProcessChecks, if_pos hid]
      exact ih
    · simp only [mergeGroupProcessChecks, if_neg hid]
      rw [ih]

/-! ## Claim theorems -/

/-- Claim C3: `CheckForTrigger` returns a match only for a pattern whose
regex, anchored as `^pattern$`, matches the entire comment body; the
pattern `/cute` does not match the comment `/cute cilium/cute-nationwide`;
and when no pattern matches, the result is the no-match value `none`, not
an error. -/
theorem checkForTrigger_full_match :
    (∀ config comment res, CheckForTrigger config comment = some res →
      ∃ p t re, (p, t) ∈ config.Triggers ∧ PatStr.triggerCompile p = some re
        ∧ comment.toList ∈ re.matches' ∧ res = (comment, t.Workflows))
    ∧ CheckForTrigger cuteConfig ("/cute cilium/cute-nationwide") = none
    ∧ (∀ config comment,
        (∀ p t re, (p, t) ∈ config.Triggers → PatStr.triggerCompile p = some re →
          comment.toList ∉ re.matches') →
        CheckForTrigger config comment = none) :=
  ⟨fun config comment res h => checkTriggerLoop_some comment config.Triggers res h,
   by decide,
   fun config comment h => checkTriggerLoop_none comment config.Triggers h⟩

/-- Witness for C3 at a concrete input: the matched result for comment
`/cute` against the `/cute` trigger comes from a fully matching pattern. -/
theorem checkForTrigger_full_match_witness :
    ∃ p t re, (p, t) ∈ cuteConfig.Triggers ∧ PatStr.triggerCompile p = some re
      ∧ ("/cute").toList ∈ re.matches'
      ∧ (("/cute"), [("cte.yaml")]) = ((("/cute") : String), t.Workflows) :=
  checkForTrigger_full_match.1 cuteConfig ("/cute") ((("/cute")), [("cte.yaml")]) (by decide)

/-- Claim C9: a trigger pattern that fails to compile is skipped:
removing it from the configuration never changes the result of
`CheckForTrigger`, so it neither fails the call nor prevents a later
pattern from matching. -/
theorem checkForTrigger_skips_noncompiling (t1 t2 : List (PatStr × TriggerConfig))
    (tc : TriggerConfig) (wfs : List (String × WorkflowPathsRegexConfig))
    (teams : List String) (comment : String) :
    CheckForTrigger ⟨t1 ++ (PatStr.bad, tc) :: t2, wfs, teams⟩ comment
      = CheckForTrigger ⟨t1 ++ t2, wfs, teams⟩ comment := by
  show checkTriggerLoop comment (t1 ++ (PatStr.bad, tc) :: t2)
    = checkTriggerLoop comment (t1 ++ t2)
  induction t1 with
  | nil => rfl
  | cons pt rest ih =>
    obtain ⟨p, t⟩ := pt
    cases hcomp : p.triggerCompile with
    | none =>
      simp only [List.cons_append, checkTriggerLoop, hcomp]
      exact ih
    | some re =>
      by_cases hm : re.rmatch comment.toList = true
      · simp only [List.cons_append, checkTriggerLoop, hcomp, if_pos hm]
      · simp only [List.cons_append, checkTriggerLoop, hcomp, if_neg hm]
        exact ih

/-- Claim C6: `ShouldRunOnlyWorkflows` returns true iff some changed file
either does not begin with the `.github/workflows` prefix or equals
exactly `.github/workflows/<workflowID>`; in particular it returns false
on the empty list, and false for `[".github/workflows/bar.yaml"]`
evaluated for workflow `foo.yaml`. -/
theorem shouldRunOnlyWorkflows_spec :
    (∀ config workflow files, ShouldRunOnlyWorkflows config workflow files = true ↔
      ∃ f ∈ files, goHasPrefix f (".github/workflows") = false
        ∨ f = (".github/workflows/") ++ workflow)
    ∧ (∀ config workflow, ShouldRunOnlyWorkflows config workflow [] = false)
    ∧ ShouldRunOnlyWorkflows ⟨[], [], []⟩ ("foo.yaml") [(".github/workflows/bar.yaml")] = false := by
  refine ⟨fun config workflow files => ?_, fun config workflow => rfl, by decide⟩
  induction files with
  | nil => simp [ShouldRunOnlyWorkflows]
  | cons f fs ih =>
    by_cases hc : goHasPrefix f (".github/workflows") = false
        ∨ f = (".github/workflows/") ++ workflow
    · simp only [ShouldRunOnlyWorkflows, if_pos hc, true_iff]
      exact ⟨f, List.mem_cons_self f fs, hc⟩
    · simp only [ShouldRunOnlyWorkflows, if_neg hc]
      rw [ih]
      constructor
      · rintro ⟨g, hg, hp⟩
        exact ⟨g, List.mem_cons_of_mem f hg, hp⟩
      · rintro ⟨g, hg, hp⟩
        rcases List.mem_cons.mp hg with rfl | hg'
        · exact absurd hp hc
        · exact ⟨g, hg', hp⟩

/-- Claim C10: `ShouldRunOnlyWorkflows` is monotone in the changed-file
list: appending additional files never turns a run decision into a skip. -/
theorem shouldRunOnlyWorkflows_monotone (config : ArianeConfig) (workflow : String)
    (files extra : List String)
    (h : ShouldRunOnlyWorkflows config workflow files = true) :
    ShouldRunOnlyWorkflows config workflow (files ++ extra) = true := by
  induction files with
  | nil => exact absurd h (by simp [ShouldRunOnlyWorkflows])
  | cons f fs ih =>
    by_cases hc : goHasPrefix f (".github/workflows") = false
        ∨ f = (".github/workflows/") ++ workflow
    · simp only [List.cons_append, ShouldRunOnlyWorkflows, if_pos hc]
    · simp only [ShouldRunOnlyWorkflows, if_neg hc] at h
      simp only [List.cons_append, ShouldRunOnlyWorkflows, if_neg hc]
      exact ih h

/-- Witness for C10 at a concrete input: a run decision for `["main.go"]`
is preserved when `.github/workflows/bar.yaml` is appended. -/
theorem shouldRunOnlyWorkflows_monotone_witness :
    ShouldRunOnlyWorkflows ⟨[], [], []⟩ ("foo.yaml") [("main.go")] = true
    ∧ ShouldRunOnlyWorkflows ⟨[], [], []⟩ ("foo.yaml")
        ([("main.go")] ++ [(".github/workflows/bar.yaml")]) = true :=
  ⟨by decide, shouldRunOnlyWorkflows_monotone ⟨[], [], []⟩ ("foo.yaml") [("main.go")]
    [(".github/workflows/bar.yaml")] (by decide)⟩

/-- Claim C4: with no API error, `shouldSkipWorkflow` returns true iff the
latest run exists, its status is `completed`, and its conclusion is
`success` or `skipped`; in particular it returns false for conclusion
`failure`, for any non-completed status, and when there is no prior run. -/
theorem shouldSkipWorkflow_iff (runs : Option (List WorkflowRun)) :
    shouldSkipWorkflow false runs = true ↔
      ∃ lastRun rest, runs = some (lastRun :: rest) ∧ lastRun.status = ("completed")
        ∧ (lastRun.conclusion = ("success") ∨ lastRun.conclusion = ("skipped")) := by
  cases runs with
  | none => simp [shouldSkipWorkflow]
  | some l =>
    cases l with
    | nil => simp [shouldSkipWorkflow]
    | cons r rest =>
      by_cases hs : r.status = ("completed")
      · by_cases hc : r.conclusion = ("success") ∨ r.conclusion = ("skipped")
        · simp [shouldSkipWorkflow, hs, hc]
        · by_cases hf : r.conclusion = ("failure") <;>
            simp [shouldSkipWorkflow, hs, hc, hf]
      · simp [shouldSkipWorkflow, hs]

/-- Claim C7: `determineContextRef` returns the PR base ref when the head
repository's owner or name differs from the event repository, and the PR
head ref otherwise; the returned SHA is the PR head SHA in both cases. -/
theorem determineContextRef_spec (pr : PullRequest) (owner repo : String) :
    ((pr.headOwner ≠ owner ∨ pr.headRepo ≠ repo) →
      determineContextRef pr owner repo = (pr.baseRef, pr.headSHA))
    ∧ (pr.headOwner = owner → pr.headRepo = repo →
      determineContextRef pr owner repo = (pr.headRef, pr.headSHA)) := by
  constructor
  · intro h
    simp only [determineContextRef, if_pos h]
  · intro h1 h2
    simp [determineContextRef, h1, h2]

/-- Witness for C7: a fork PR evaluates in the base-branch context, a
same-repo PR in the head-branch context; both report the head SHA. -/
theorem determineContextRef_spec_witness :
    determineContextRef forkPR ("cilium") ("cilium") = (("main"), ("sha1"))
    ∧ determineContextRef localPR ("cilium") ("cilium") = (("feature"), ("sha2")) :=
  ⟨(determineContextRef_spec forkPR ("cilium") ("cilium")).1 (Or.inl (by decide)),
   (determineContextRef_spec localPR ("cilium") ("cilium")).2 rfl rfl⟩

/-- Counterexample to claim C1: `foo.yaml` sets only `paths-ignore-regex`
(pattern `docs/`, compiling); the single changed file
`.github/workflows/bar.yaml` does not match the anchored ignore pattern,
yet `ShouldRunWorkflow` returns false, because a file under
`.github/workflows` belonging to another workflow is counted as ignorable
regardless of the ignore pattern. -/
theorem shouldRunWorkflow_ignoreOnly_cex :
    List.lookup ("foo.yaml") ignoreOnlyConfig.Workflows
      = some ⟨PatStr.empty, PatStr.ok (strLit ("docs/"))⟩
    ∧ ([(".github/workflows/bar.yaml")] : List String) ≠ []
    ∧ goMatchStart (strLit ("docs/")) (".github/workflows/bar.yaml") = false
    ∧ ShouldRunWorkflow ignoreOnlyConfig ("foo.yaml") [(".github/workflows/bar.yaml")] = false :=
  ⟨rfl, by decide, by decide, by decide⟩

/-- Claim C1 (amended): for a workflow with only `pathsIgnoreRegex`
configured and a non-empty changed-file list containing no file under the
`.github/workflows` prefix, `ShouldRunWorkflow` returns false if every
changed file matches the anchored ignore pattern and true if at least one
does not. -/
theorem shouldRunWorkflow_ignoreOnly_amended (config : ArianeConfig) (workflow : String)
    (rI : Regex) (files : List String)
    (hlook : List.lookup workflow config.Workflows = some ⟨PatStr.empty, PatStr.ok rI⟩)
    (hne : files ≠ [])
    (hpre : ∀ f ∈ files, goHasPrefix f (".github/workflows") = false) :
    ((∀ f ∈ files, goMatchStart rI f = true) →
      ShouldRunWorkflow config workflow files = false)
    ∧ ((∃ f ∈ files, goMatchStart rI f = false) →
      ShouldRunWorkflow config workflow files = true) := by
  have hlen : ¬ files.length = 0 := by simpa [List.length_eq_zero] using hne
  have hmain : ShouldRunWorkflow config workflow files
      = decide (List.countP (fun f => goMatchStart rI f) files < files.length) := by
    simp only [ShouldRunWorkflow, if_neg hlen, hlook]
    rw [if_neg (by simp [PatStr.isEmptyStr])]
    simp only [PatStr.fieldCompile]
    rw [countIgnored_ignoreOnly workflow rI files hpre]
    simp
  constructor
  · intro hall
    have hcnt : List.countP (fun f => goMatchStart rI f) files = files.length :=
      List.countP_eq_length.mpr hall
    rw [hmain, hcnt]
    simp
  · rintro ⟨f, hf, hfm⟩
    have hlt : List.countP (fun f => goMatchStart rI f) files < files.length := by
      refine lt_of_le_of_ne (List.countP_le_length _) fun heq => ?_
      have := List.countP_eq_length.mp heq f hf
      rw [hfm] at this
      exact Bool.noConfusion this
    rw [hmain]
    simp [hlt]

/-- Witness for the amended C1 at a concrete input: `README.md` is outside
the workflows directory and does not match `^docs/`, so `foo.yaml` runs. -/
theorem shouldRunWorkflow_ignoreOnly_amended_witness :
    ShouldRunWorkflow ignoreOnlyConfig ("foo.yaml") [("README.md")] = true :=
  (shouldRunWorkflow_ignoreOnly_amended ignoreOnlyConfig ("foo.yaml")
    (strLit ("docs/")) [("README.md")] rfl (by decide) (by decide)).2
    ⟨("README.md"), by decide, by decide⟩

/-- Counterexample to claim C2: `foo.yaml` is present in the workflows map
with a non-empty `pathsRegex` that fails to compile (and an empty
`pathsIgnoreRegex`); the changed-file list contains exactly the workflow's
own file, yet `ShouldRunWorkflow` returns false, because the compile
failure aborts the call before the file loop. -/
theorem shouldRunWorkflow_own_file_cex :
    List.lookup ("foo.yaml") badRegexConfig.Workflows = some ⟨PatStr.bad, PatStr.empty⟩
    ∧ ((".github/workflows/") ++ ("foo.yaml")) ∈ [(".github/workflows/foo.yaml")]
    ∧ ShouldRunWorkflow badRegexConfig ("foo.yaml") [(".github/workflows/foo.yaml")] = false :=
  ⟨rfl, by decide, by decide⟩

/-- Claim C2 (amended): for every workflow present in the workflows map
whose non-empty path patterns compile, a changed-file list containing
`.github/workflows/<workflowID>` makes `ShouldRunWorkflow` return true,
for every combination of `pathsRegex`/`pathsIgnoreRegex` values. -/
theorem shouldRunWorkflow_own_file (config : ArianeConfig) (workflow : String)
    (wc : WorkflowPathsRegexConfig) (files : List String)
    (hlook : List.lookup workflow config.Workflows = some wc)
    (hre : wc.PathsRegex ≠ PatStr.bad) (hri : wc.PathsIgnoreRegex ≠ PatStr.bad)
    (hmem : (".github/workflows/") ++ workflow ∈ files) :
    ShouldRunWorkflow config workflow files = true := by
  have hlen : ¬ files.length = 0 := by
    simpa [List.length_eq_zero] using List.ne_nil_of_mem hmem
  simp only [ShouldRunWorkflow, if_neg hlen, hlook]
  by_cases hboth : wc.PathsRegex.isEmptyStr = false ∧ wc.PathsIgnoreRegex.isEmptyStr = false
  · rw [if_pos hboth]
  · rw [if_neg hboth]
    obtain ⟨re, hcre⟩ : ∃ o, wc.PathsRegex.fieldCompile = some o := by
      cases hpat : wc.PathsRegex with
      | empty => exact ⟨none, rfl⟩
      | bad => exact absurd hpat hre
      | ok r => exact ⟨some r, rfl⟩
    obtain ⟨ri, hcri⟩ : ∃ o, wc.PathsIgnoreRegex.fieldCompile = some o := by
      cases hpat : wc.PathsIgnoreRegex with
      | empty => exact ⟨none, rfl⟩
      | bad => exact absurd hpat hri
      | ok r => exact ⟨some r, rfl⟩
    simp only [hcre, hcri, countIgnored_none_of_own workflow re ri files hmem]

/-- Witness for the amended C2 at a concrete input: touching
`.github/workflows/foo.yaml` forces a run of `foo.yaml` (both path fields
empty here). -/
theorem shouldRunWorkflow_own_file_witness :
    ShouldRunWorkflow plainConfig ("foo.yaml") [(".github/workflows/foo.yaml")] = true :=
  shouldRunWorkflow_own_file plainConfig ("foo.yaml") ⟨PatStr.empty, PatStr.empty⟩
    [(".github/workflows/foo.yaml")] rfl (fun h => PatStr.noConfusion h)
    (fun h => PatStr.noConfusion h) (by decide)

/-- Claim C5: for a workflow configured with both `pathsRegex` and
`pathsIgnoreRegex` non-empty, `ShouldRunWorkflow` returns true for every
non-empty changed-file list and false for the empty list (the empty-list
check takes precedence over the both-regexes default-to-run). -/
theorem shouldRunWorkflow_both_defined (config : ArianeConfig) (workflow : String)
    (wc : WorkflowPathsRegexConfig) (files : List String)
    (hlook : List.lookup workflow config.Workflows = some wc)
    (hre : wc.PathsRegex.isEmptyStr = false) (hri : wc.PathsIgnoreRegex.isEmptyStr = false) :
    (files ≠ [] → ShouldRunWorkflow config workflow files = true)
    ∧ ShouldRunWorkflow config workflow [] = false := by
  constructor
  · intro hne
    have hlen : ¬ files.length = 0 := by simpa [List.length_eq_zero] using hne
    simp only [ShouldRunWorkflow, if_neg hlen, hlook]
    rw [if_pos ⟨hre, hri⟩]
  · rfl

/-- Witness for C5 at a concrete input: `foobar.yaml` sets both patterns;
a one-file list runs, the empty list does not. -/
theorem shouldRunWorkflow_both_defined_witness :
    ShouldRunWorkflow bothConfig ("foobar.yaml") [("Documentation/guide.rst")] = true
    ∧ ShouldRunWorkflow bothConfig ("foobar.yaml") [] = false :=
  ⟨(shouldRunWorkflow_both_defined bothConfig ("foobar.yaml")
      ⟨PatStr.ok (strLit ("x/")), PatStr.ok (strLit ("test/"))⟩
      [("Documentation/guide.rst")] rfl rfl rfl).1 (by decide),
   (shouldRunWorkflow_both_defined bothConfig ("foobar.yaml")
      ⟨PatStr.ok (strLit ("x/")), PatStr.ok (strLit ("test/"))⟩
      [("Documentation/guide.rst")] rfl rfl rfl).2⟩

/-- Claim C8: on a `merge_group` event with action `checks_requested`, a
completed/success check run is created at the merge-group head SHA for a
required check iff the check's app identifier is 0; and the set of created
check runs does not depend on which creation calls fail (a failure does
not prevent the remaining checks from being processed). -/
theorem mergeGroupHandle_spec (createErr : CheckRunOptions → Bool) (event : MergeGroupEvent)
    (checks : List RequiredCheck) (haction : event.action = ("checks_requested")) :
    (∀ opts, opts ∈ MergeGroupHandle createErr event checks ↔
      ∃ ch ∈ checks, ch.appID = 0
        ∧ opts = ⟨ch.context, event.headSHA, ("completed"), ("success")⟩)
    ∧ (∀ g, MergeGroupHandle createErr event checks = MergeGroupHandle g event checks) := by
  have hact : ¬ event.action ≠ ("checks_requested") := by simp [haction]
  constructor
  · intro opts
    simp only [MergeGroupHandle, if_neg hact]
    exact mem_mergeGroupProcessChecks createErr event.headSHA checks opts
  · intro g
    simp only [MergeGroupHandle, if_neg hact]
    exact mergeGroupProcessChecks_indep createErr g event.headSHA checks

/-- Witness for C8 at a concrete input: with one `appID = 0` check and one
external check, under an always-failing creator, the created-run
characterization holds and the output equals the never-failing creator's. -/
theorem mergeGroupHandle_spec_witness :
    ((⟨("required-a"), ("mgsha"), ("completed"), ("success")⟩ : CheckRunOptions)
        ∈ MergeGroupHandle (fun _ => true) mgEvent mgChecks ↔
      ∃ ch ∈ mgChecks, ch.appID = 0
        ∧ (⟨("required-a"), ("mgsha"), ("completed"), ("success")⟩ : CheckRunOptions)
          = ⟨ch.context, mgEvent.headSHA, ("completed"), ("success")⟩)
    ∧ MergeGroupHandle (fun _ => true) mgEvent mgChecks
        = MergeGroupHandle (fun _ => false) mgEvent mgChecks :=
  ⟨(mergeGroupHandle_spec (fun _ => true) mgEvent mgChecks rfl).1
      ⟨("required-a"), ("mgsha"), ("completed"), ("success")⟩,
   (mergeGroupHandle_spec (fun _ => true) mgEvent mgChecks rfl).2 (fun _ => false)⟩

end Ariane
